import Mathlib

/-!
Verification of the krilla PDF library's version-capability matrix
(src/crates/krilla/src/configure/version.rs) and of the style-coalescing
glyph loop and font-resource cache of the parley example
(src/crates/krilla/examples/parley.rs), via a shallow embedding in Lean.
-/

/-- The version of a PDF document (enum `PdfVersion` in version.rs).
The Rust `derive(PartialOrd, Ord)` orders variants by declaration order. -/
inductive PdfVersion where
  | Pdf14
  | Pdf15
  | Pdf16
  | Pdf17
  | Pdf20
deriving DecidableEq, Repr

/-- Index of a version in declaration order; the derived Rust `Ord` compares
variants by this index. -/
def PdfVersion.idx : PdfVersion → Nat
  | .Pdf14 => 0
  | .Pdf15 => 1
  | .Pdf16 => 2
  | .Pdf17 => 3
  | .Pdf20 => 4

instance : LE PdfVersion := ⟨fun a b => a.idx ≤ b.idx⟩

instance : LT PdfVersion := ⟨fun a b => a.idx < b.idx⟩

instance (a b : PdfVersion) : Decidable (a ≤ b) :=
  inferInstanceAs (Decidable (a.idx ≤ b.idx))

instance (a b : PdfVersion) : Decidable (a < b) :=
  inferInstanceAs (Decidable (a.idx < b.idx))

/-- Modelled from the spec: `ProfileMetadata` — major/minor revision numbers of
an ICC profile (struct `ICCMetadata` of src/graphics/icc.rs, which is not part
of the provided sources; only its `major`/`minor` fields are read by
version.rs). -/
structure ICCMetadata where
  major : Nat
  minor : Nat
deriving DecidableEq, Repr

/-- The four built-in ICC profiles of version.rs (statics `SRGB_V2_ICC`,
`SRGB_V4_ICC`, `GREY_V2_ICC`, `GREY_V4_ICC`), abstracted to their identity:
a color model (3-component rgb vs 1-component grey) and a generation (v2/v4). -/
inductive ICCProfile3 where
  | srgbV2
  | srgbV4
deriving DecidableEq, Repr

/-- The two built-in 1-component (grey) profiles. -/
inductive ICCProfile1 where
  | greyV2
  | greyV4
deriving DecidableEq, Repr

/-- `PdfVersion::rgb_icc` of version.rs. -/
def PdfVersion.rgb_icc : PdfVersion → ICCProfile3
  | .Pdf14 => .srgbV2
  | .Pdf15 => .srgbV2
  | .Pdf16 => .srgbV2
  | .Pdf17 => .srgbV4
  | .Pdf20 => .srgbV4

/-- `PdfVersion::grey_icc` of version.rs. -/
def PdfVersion.grey_icc : PdfVersion → ICCProfile1
  | .Pdf14 => .greyV2
  | .Pdf15 => .greyV2
  | .Pdf16 => .greyV2
  | .Pdf17 => .greyV4
  | .Pdf20 => .greyV4

/-- `PdfVersion::supports_icc` of version.rs. -/
def PdfVersion.supports_icc (v : PdfVersion) (metadata : ICCMetadata) : Bool :=
  match v with
  | .Pdf14 => decide (metadata.major ≤ 2 ∧ metadata.minor ≤ 2)
  | .Pdf15 => decide (metadata.major ≤ 4)
  | .Pdf16 => decide (metadata.major ≤ 4 ∧ metadata.minor ≤ 1)
  | .Pdf17 => decide (metadata.major ≤ 4 ∧ metadata.minor ≤ 2)
  | .Pdf20 => decide (metadata.major ≤ 4 ∧ metadata.minor ≤ 2)

/-- `BitsPerComponent` of src/image.rs: the exhaustive match in
`supports_bit_depth` shows exactly the variants `Eight` and `Sixteen`. -/
inductive BitsPerComponent where
  | Eight
  | Sixteen
deriving DecidableEq, Repr

/-- `PdfVersion::supports_bit_depth` of version.rs. -/
def PdfVersion.supports_bit_depth (v : PdfVersion)
    (bits_per_component : BitsPerComponent) : Bool :=
  match bits_per_component with
  | .Eight => true
  | .Sixteen => decide (PdfVersion.Pdf15 ≤ v)

/-- `PdfVersion::deprecates_proc_sets` of version.rs. -/
def PdfVersion.deprecates_proc_sets (v : PdfVersion) : Bool :=
  decide (PdfVersion.Pdf20 ≤ v)

/-- `PdfVersion::deprecates_cid_set` of version.rs. -/
def PdfVersion.deprecates_cid_set (v : PdfVersion) : Bool :=
  decide (PdfVersion.Pdf20 ≤ v)

/-- The list of version pairs `(v1, v2)` with `v1 < v2` at which ICC-profile
support is not monotone in the code: a profile accepted at `v1` can be
rejected at `v2` (PDF 1.5 drops the minor-revision bound that PDF 1.6 and
later re-impose, and PDF 1.4's minor bound of 2 exceeds PDF 1.6's bound
of 1). -/
def iccMonoExceptions : List (PdfVersion × PdfVersion) :=
  [(.Pdf14, .Pdf16), (.Pdf15, .Pdf16), (.Pdf15, .Pdf17), (.Pdf15, .Pdf20)]

/-!
Font-resource cache of examples/parley.rs.

The example keeps `let mut font_cache = HashMap::new();` and, per run,

  let (font_data, id) = font.data.into_raw_parts();
  let krilla_font = font_cache
      .entry(id)
      .or_insert_with(|| Font::new(font_data.into(), font.index).unwrap());

The key is the identity `id` of the underlying font byte buffer; the face
index `font.index` only enters through the constructor closure.
-/

/-- A parley font reference as used by the example loop: the identity of its
byte buffer (`font.data.into_raw_parts().1`) and its face/collection index
(`font.index`). -/
structure FontRef where
  dataId : Nat
  index : Nat
deriving DecidableEq, Repr

/-- A krilla `Font` as constructed by `Font::new(font_data.into(), font.index)`,
abstracted to the identity of the data it was built from and the face index it
was built with. -/
structure Font where
  dataId : Nat
  index : Nat
deriving DecidableEq, Repr

/-- One `font_cache.entry(id).or_insert_with(...)` step of parley.rs: the cache
is keyed by `dataId` alone; on a miss the font is constructed from the
reference's data and index and inserted. Returns the obtained font and the
updated cache. -/
def fontCacheGet (cache : List (Nat × Font)) (f : FontRef) :
    Font × List (Nat × Font) :=
  match cache.find? (fun e => e.1 == f.dataId) with
  | some e => (e.2, cache)
  | none => (⟨f.dataId, f.index⟩, cache ++ [(f.dataId, (⟨f.dataId, f.index⟩ : Font))])

/-- Folding `fontCacheGet` over a sequence of font references (the successive
runs of the document), collecting the font obtained for each reference and the
final cache. -/
def processFonts (cache : List (Nat × Font)) :
    List FontRef → List Font × List (Nat × Font)
  | [] => ([], cache)
  | f :: fs =>
    let step := fontCacheGet cache f
    let rest := processFonts step.2 fs
    (step.1 :: rest.1, rest.2)

/-- Generic model of `HashMap::entry(k).or_insert_with(ctor)` with an
instrumented constructor: `ctor` receives the number of constructor calls made
so far, so that distinct invocations can produce distinguishable outputs, and
the call counter is threaded through. Returns (value, cache, counter). -/
def getOrCreate {V : Type} (cache : List (Nat × V)) (k : Nat) (ctor : Nat → V)
    (calls : Nat) : V × List (Nat × V) × Nat :=
  match cache.find? (fun e => e.1 == k) with
  | some e => (e.2, cache, calls)
  | none => (ctor calls, cache ++ [(k, ctor calls)], calls + 1)

/-- Calling `getOrCreate` `n` times with the same key `k`, collecting the `n`
returned values and the final cache and constructor-call counter. -/
def getOrCreateN {V : Type} (k : Nat) (ctor : Nat → V) :
    Nat → List (Nat × V) → Nat → List V × List (Nat × V) × Nat
  | 0, cache, calls => ([], cache, calls)
  | n + 1, cache, calls =>
    let step := getOrCreate cache k ctor calls
    let rest := getOrCreateN k ctor n step.2.1 step.2.2
    (step.1 :: rest.1, rest.2)

/-!
Style-coalescing glyph loop of examples/parley.rs (the per-run loop over
`run.visual_clusters()`), embedded with exact rational arithmetic in place of
`f32`.
-/

/-- An input glyph as supplied by parley to the loop body: `glyph.id`,
`glyph.advance`, `glyph.x`, `glyph.y`, `glyph.style_index`, and the cluster's
`text_range()`. -/
structure InGlyph where
  id : Nat
  advance : ℚ
  x : ℚ
  y : ℚ
  styleIndex : Nat
  textStart : Nat
  textEnd : Nat
deriving DecidableEq, Repr

/-- A glyph as accumulated by the loop via `KrillaGlyph::new(GlyphId::new(id),
advance / font_size, x / font_size, y / font_size, 0.0, text_range, None)`. -/
structure KrillaGlyph where
  gid : Nat
  xAdvance : ℚ
  xOffset : ℚ
  yOffset : ℚ
  yAdvance : ℚ
  textStart : Nat
  textEnd : Nat
deriving DecidableEq, Repr

/-- The `KrillaGlyph::new(...)` call of the loop body. -/
def toKrilla (fontSize : ℚ) (g : InGlyph) : KrillaGlyph :=
  ⟨g.id, g.advance / fontSize, g.x / fontSize, g.y / fontSize, 0,
    g.textStart, g.textEnd⟩

/-- A surface operation emitted by the loop: `surface.set_fill(...)` recording
which style index's brush was resolved from `layout.styles()`, or
`surface.draw_glyphs(point, &glyphs, ...)` recording the point and
the batch of glyphs shown. -/
inductive Op where
  | setFill (styleIndex : Nat)
  | drawGlyphs (x : ℚ) (y : ℚ) (glyphs : List KrillaGlyph)
deriving DecidableEq, Repr

/-- The loop state of the per-run loop: `cur_style`, the `glyphs` buffer, the
cursor `x`, the batch origin `cur_x`, and the operations emitted so far. -/
structure RunState where
  curStyle : Option Nat
  glyphs : List KrillaGlyph
  x : ℚ
  curX : ℚ
  ops : List Op
deriving DecidableEq, Repr

/-- The state at run start: `cur_style = None`, empty buffer, and
`cur_x = x` at the run's starting cursor position. -/
def initState (x0 : ℚ) : RunState :=
  ⟨none, [], x0, x0, []⟩

/-- One iteration of the loop body for one glyph: flush on a style change
(emit `set_fill` with the previous style's brush, then `draw_glyphs` of the
buffered glyphs at `(cur_x, y)`, clear the buffer and reset `cur_x` to the
cursor), then push the glyph and advance the cursor. -/
def runStep (fontSize y : ℚ) (st : RunState) (g : InGlyph) : RunState :=
  let st1 : RunState :=
    match st.curStyle with
    | some style =>
      if style ≠ g.styleIndex then
        { st with
            curStyle := some g.styleIndex
            ops := st.ops ++ [Op.setFill style, Op.drawGlyphs st.curX y st.glyphs]
            glyphs := []
            curX := st.x }
      else st
    | none => { st with curStyle := some g.styleIndex }
  { st1 with
      glyphs := st1.glyphs ++ [toKrilla fontSize g]
      x := st1.x + g.advance }

/-- The final flush after the loop: if the buffer is non-empty, emit
`set_fill` for `cur_style.unwrap()` and a last `draw_glyphs`; `none` models
the `unwrap()` panicking on a `None` current style. -/
def finishRun (y : ℚ) (st : RunState) : Option (List Op) :=
  if st.glyphs.isEmpty then some st.ops
  else
    match st.curStyle with
    | none => none
    | some s => some (st.ops ++ [Op.setFill s, Op.drawGlyphs st.curX y st.glyphs])

/-- The whole per-run loop of parley.rs: fold the loop body over the run's
glyphs in visual order starting from cursor position `x0`, then perform the
final flush. -/
def processRun (fontSize y x0 : ℚ) (gs : List InGlyph) : Option (List Op) :=
  finishRun y (gs.foldl (runStep fontSize y) (initState x0))

/-!
Specification-side decomposition: the maximal contiguous style-homogeneous
chunks of an input glyph sequence, and the operator sequence they induce.
These are compared against `processRun`.
-/

/-- Sum of the advances of a list of input glyphs. -/
def sumAdv : List InGlyph → ℚ
  | [] => 0
  | g :: gs => g.advance + sumAdv gs

/-- Style index of the first glyph of a chunk (chunks are non-empty). -/
def headStyle : List InGlyph → Nat
  | [] => 0
  | g :: _ => g.styleIndex

/-- The maximal contiguous runs of equal style index in a glyph sequence. -/
def chunkByStyle : List InGlyph → List (List InGlyph)
  | [] => []
  | g :: gs =>
    (g :: gs.takeWhile (fun h => h.styleIndex == g.styleIndex)) ::
      chunkByStyle (gs.dropWhile (fun h => h.styleIndex == g.styleIndex))
termination_by gs => gs.length
decreasing_by
  simp only [List.length_cons, Nat.lt_succ_iff]
  exact (List.dropWhile_sublist _).length_le

/-- The operators induced by a chunk decomposition starting at cursor `x`:
for each chunk, one `set_fill` of its style followed by one `draw_glyphs` of
its glyphs at the cumulative advance of all earlier glyphs. -/
def opsOfChunks (fontSize y : ℚ) : ℚ → List (List InGlyph) → List Op
  | _, [] => []
  | x, c :: cs =>
    Op.setFill (headStyle c) ::
      Op.drawGlyphs x y (c.map (toKrilla fontSize)) ::
        opsOfChunks fontSize y (x + sumAdv c) cs

/-- The operator sequence emitted by the loop from the mid-run state with
current style `s`, buffer `b`, cursor `x` and batch origin `curX`, on the
remaining glyphs. -/
def emitFrom (fontSize y : ℚ) (s : Nat) (b : List KrillaGlyph) (x curX : ℚ) :
    List InGlyph → List Op
  | [] => [Op.setFill s, Op.drawGlyphs curX y b]
  | g :: gs =>
    if g.styleIndex = s then
      emitFrom fontSize y s (b ++ [toKrilla fontSize g]) (x + g.advance) curX gs
    else
      Op.setFill s :: Op.drawGlyphs curX y b ::
        emitFrom fontSize y g.styleIndex [toKrilla fontSize g] (x + g.advance) x gs

/-- Number of `draw_glyphs` operators in an operator sequence. -/
def numDraws (ops : List Op) : Nat :=
  ops.countP (fun o => match o with | Op.drawGlyphs _ _ _ => true | _ => false)

/-- Number of `set_fill` operators in an operator sequence. -/
def numFills (ops : List Op) : Nat :=
  ops.countP (fun o => match o with | Op.setFill _ => true | _ => false)

/-- The glyph batches shown by the `draw_glyphs` operators, in order. -/
def drawBatches : List Op → List (List KrillaGlyph)
  | [] => []
  | Op.setFill _ :: ops => drawBatches ops
  | Op.drawGlyphs _ _ b :: ops => b :: drawBatches ops

/-- The origins of the `draw_glyphs` operators, in order. -/
def drawOrigins : List Op → List ℚ
  | [] => []
  | Op.setFill _ :: ops => drawOrigins ops
  | Op.drawGlyphs x _ _ :: ops => x :: drawOrigins ops

/-- A chunk list is non-empty chunk-wise and each chunk is style-homogeneous. -/
def chunksHomogeneous (cs : List (List InGlyph)) : Bool :=
  cs.all (fun c => !c.isEmpty && c.all (fun g => g.styleIndex == headStyle c))

/-- Mid-run correctness of the loop: from a state with current style `s` and a
non-empty buffer `b`, folding the loop body over the remaining glyphs and
performing the final flush appends exactly `emitFrom`'s operator sequence. -/
theorem foldl_runStep_emitFrom (fontSize y : ℚ) (gs : List InGlyph) :
    ∀ (s : Nat) (b : List KrillaGlyph) (x curX : ℚ) (ops : List Op),
      b ≠ [] →
      finishRun y (gs.foldl (runStep fontSize y) ⟨some s, b, x, curX, ops⟩) =
        some (ops ++ emitFrom fontSize y s b x curX gs) := by
  induction gs with
  | nil =>
    intro s b x curX ops hb
    cases b with
    | nil => exact absurd rfl hb
    | cons k ks => simp [finishRun, emitFrom, List.isEmpty]
  | cons g gs ih =>
    intro s b x curX ops hb
    by_cases hg : g.styleIndex = s
    · have hstep : runStep fontSize y ⟨some s, b, x, curX, ops⟩ g =
          ⟨some s, b ++ [toKrilla fontSize g], x + g.advance, curX, ops⟩ := by
        simp [runStep, hg]
      rw [List.foldl_cons, hstep, ih s (b ++ [toKrilla fontSize g])
        (x + g.advance) curX ops (by simp)]
      simp [emitFrom, hg]
    · have hsg : s ≠ g.styleIndex := fun h => hg h.symm
      have hstep : runStep fontSize y ⟨some s, b, x, curX, ops⟩ g =
          ⟨some g.styleIndex, [toKrilla fontSize g], x + g.advance, x,
            ops ++ [Op.setFill s, Op.drawGlyphs curX y b]⟩ := by
        simp [runStep, hsg]
      rw [List.foldl_cons, hstep, ih g.styleIndex [toKrilla fontSize g]
        (x + g.advance) x (ops ++ [Op.setFill s, Op.drawGlyphs curX y b])
        (by simp)]
      simp [emitFrom, hg]

/-- `emitFrom` produces one batch for the buffer extended by the leading
glyphs of the current style, followed by the operators of the chunk
decomposition of the remaining glyphs. -/
theorem emitFrom_eq_opsOfChunks (fontSize y : ℚ) (gs : List InGlyph) :
    ∀ (s : Nat) (b : List KrillaGlyph) (x curX : ℚ),
      emitFrom fontSize y s b x curX gs =
        Op.setFill s ::
          Op.drawGlyphs curX y
            (b ++ (gs.takeWhile (fun h => h.styleIndex == s)).map
              (toKrilla fontSize)) ::
            opsOfChunks fontSize y
              (x + sumAdv (gs.takeWhile (fun h => h.styleIndex == s)))
              (chunkByStyle (gs.dropWhile (fun h => h.styleIndex == s))) := by
  induction gs with
  | nil =>
    intro s b x curX
    simp [emitFrom, opsOfChunks, chunkByStyle, sumAdv]
  | cons g gs ih =>
    intro s b x curX
    by_cases hg : g.styleIndex = s
    · rw [emitFrom, if_pos hg, ih s (b ++ [toKrilla fontSize g])
        (x + g.advance) curX]
      have htw : (g :: gs).takeWhile (fun h => h.styleIndex == s) =
          g :: gs.takeWhile (fun h => h.styleIndex == s) := by
        simp [List.takeWhile_cons, hg]
      have hdw : (g :: gs).dropWhile (fun h => h.styleIndex == s) =
          gs.dropWhile (fun h => h.styleIndex == s) := by
        simp [List.dropWhile_cons, hg]
      rw [htw, hdw]
      simp [sumAdv]
      ring_nf
    · rw [emitFrom, if_neg hg, ih g.styleIndex [toKrilla fontSize g]
        (x + g.advance) x]
      have htw : (g :: gs).takeWhile (fun h => h.styleIndex == s) = [] := by
        simp [List.takeWhile_cons, hg]
      have hdw : (g :: gs).dropWhile (fun h => h.styleIndex == s) = g :: gs := by
        simp [List.dropWhile_cons, hg]
      rw [htw, hdw, chunkByStyle]
      simp [opsOfChunks, headStyle, sumAdv]
      ring_nf

/-- The per-run loop of parley.rs emits exactly the operator sequence of the
maximal contiguous style-homogeneous chunk decomposition of its input: one
`set_fill` and one `draw_glyphs` per chunk, each batch positioned at the
cumulative advance of all earlier glyphs. -/
theorem processRun_eq_chunks (fontSize y x0 : ℚ) (gs : List InGlyph) :
    processRun fontSize y x0 gs =
      some (opsOfChunks fontSize y x0 (chunkByStyle gs)) := by
  cases gs with
  | nil => simp [processRun, initState, finishRun, chunkByStyle, opsOfChunks,
      List.isEmpty]
  | cons g gs =>
    have hstep : runStep fontSize y (initState x0) g =
        ⟨some g.styleIndex, [toKrilla fontSize g], x0 + g.advance, x0, []⟩ := by
      simp [runStep, initState]
    rw [processRun, List.foldl_cons, hstep,
      foldl_runStep_emitFrom fontSize y gs g.styleIndex [toKrilla fontSize g]
        (x0 + g.advance) x0 [] (by simp),
      emitFrom_eq_opsOfChunks, chunkByStyle]
    simp [opsOfChunks, headStyle, sumAdv]
    ring_nf

/-- Concatenating the chunks of `chunkByStyle` recovers the input: no glyph is
dropped or duplicated and order is preserved (auxiliary, length-bounded). -/
theorem chunkByStyle_join_aux (n : Nat) :
    ∀ gs : List InGlyph, gs.length ≤ n → (chunkByStyle gs).flatten = gs := by
  induction n with
  | zero =>
    intro gs h
    cases gs with
    | nil => simp [chunkByStyle]
    | cons g tl => simp at h
  | succ n ih =>
    intro gs h
    cases gs with
    | nil => simp [chunkByStyle]
    | cons g tl =>
      rw [chunkByStyle, List.flatten_cons,
        ih (tl.dropWhile (fun h => h.styleIndex == g.styleIndex))
          (le_trans ((List.dropWhile_sublist _).length_le) (Nat.le_of_succ_le_succ h))]
      simp [List.takeWhile_append_dropWhile]

/-- Concatenating the chunks of `chunkByStyle` recovers the input. -/
theorem chunkByStyle_join (gs : List InGlyph) : (chunkByStyle gs).flatten = gs :=
  chunkByStyle_join_aux gs.length gs le_rfl

/-- Each chunk of `chunkByStyle` is non-empty and style-homogeneous
(auxiliary, length-bounded). -/
theorem chunkByStyle_homogeneous_aux (n : Nat) :
    ∀ gs : List InGlyph, gs.length ≤ n →
      chunksHomogeneous (chunkByStyle gs) = true := by
  induction n with
  | zero =>
    intro gs h
    cases gs with
    | nil => simp [chunkByStyle, chunksHomogeneous]
    | cons g tl => simp at h
  | succ n ih =>
    intro gs h
    cases gs with
    | nil => simp [chunkByStyle, chunksHomogeneous]
    | cons g tl =>
      rw [chunkByStyle]
      have hrest := ih (tl.dropWhile (fun h => h.styleIndex == g.styleIndex))
        (le_trans ((List.dropWhile_sublist _).length_le) (Nat.le_of_succ_le_succ h))
      simp only [chunksHomogeneous, List.all_cons, Bool.and_eq_true] at hrest ⊢
      refine ⟨?_, hrest⟩
      simp [List.isEmpty, headStyle, List.all_eq_true]

/-- Each chunk of `chunkByStyle` is non-empty and style-homogeneous. -/
theorem chunkByStyle_homogeneous (gs : List InGlyph) :
    chunksHomogeneous (chunkByStyle gs) = true :=
  chunkByStyle_homogeneous_aux gs.length gs le_rfl

/-- `opsOfChunks` emits exactly one `set_fill` per chunk. -/
theorem numFills_opsOfChunks (fontSize y : ℚ) (cs : List (List InGlyph)) :
    ∀ x : ℚ, numFills (opsOfChunks fontSize y x cs) = cs.length := by
  induction cs with
  | nil => intro x; simp [opsOfChunks, numFills]
  | cons c cs ih =>
    intro x
    simp [opsOfChunks, numFills, List.countP_cons] at ih ⊢
    exact ih (x + sumAdv c)

/-- `opsOfChunks` emits exactly one `draw_glyphs` per chunk. -/
theorem numDraws_opsOfChunks (fontSize y : ℚ) (cs : List (List InGlyph)) :
    ∀ x : ℚ, numDraws (opsOfChunks fontSize y x cs) = cs.length := by
  induction cs with
  | nil => intro x; simp [opsOfChunks, numDraws]
  | cons c cs ih =>
    intro x
    simp [opsOfChunks, numDraws, List.countP_cons] at ih ⊢
    exact ih (x + sumAdv c)

/-- The batches shown by `opsOfChunks` are exactly the chunks. -/
theorem drawBatches_opsOfChunks (fontSize y : ℚ) (cs : List (List InGlyph)) :
    ∀ x : ℚ, drawBatches (opsOfChunks fontSize y x cs) =
      cs.map (List.map (toKrilla fontSize)) := by
  induction cs with
  | nil => intro x; simp [opsOfChunks, drawBatches]
  | cons c cs ih =>
    intro x
    simp [opsOfChunks, drawBatches]
    exact ih (x + sumAdv c)


/-- `runStep` always leaves the current style set. -/
theorem runStep_curStyle_isSome (fontSize y : ℚ) (st : RunState) (g : InGlyph) :
    ((runStep fontSize y st g).curStyle).isSome = true := by
  rcases st with ⟨cs, b, x, cx, ops⟩
  cases cs with
  | none => simp [runStep]
  | some s =>
    by_cases h : s ≠ g.styleIndex <;> simp [runStep, h]

/-- The loop invariant: whenever the glyph buffer is non-empty, the current
style is set; preserved by folding the loop body. -/
theorem foldl_runStep_inv (fontSize y : ℚ) (gs : List InGlyph) :
    ∀ st : RunState,
      (st.glyphs.isEmpty || st.curStyle.isSome) = true →
      ((gs.foldl (runStep fontSize y) st).glyphs.isEmpty ||
        (gs.foldl (runStep fontSize y) st).curStyle.isSome) = true := by
  induction gs with
  | nil => intro st h; simpa using h
  | cons g gs ih =>
    intro st _
    rw [List.foldl_cons]
    exact ih (runStep fontSize y st g)
      (by rw [runStep_curStyle_isSome fontSize y st g, Bool.or_true])

/-- Claim C1 (counterexample): capability monotonicity fails for
`supports_icc`: the profile with major 3 and minor 2 is supported at
PDF 1.5 but not at the later version PDF 1.6. -/
theorem claim_C1_counterexample :
    PdfVersion.Pdf15 < PdfVersion.Pdf16 ∧
    PdfVersion.supports_icc .Pdf15 ⟨3, 2⟩ = true ∧
    PdfVersion.supports_icc .Pdf16 ⟨3, 2⟩ = false := by
  decide

/-- Claim C1 (amended): for all versions `v1 < v2`, bit-depth support is
monotone; ICC-profile support is monotone for every pair except the four
listed in `iccMonoExceptions`. -/
theorem claim_C1 (v1 v2 : PdfVersion) (h : v1 < v2) :
    (∀ d, PdfVersion.supports_bit_depth v1 d = true →
      PdfVersion.supports_bit_depth v2 d = true) ∧
    ((v1, v2) ∉ iccMonoExceptions →
      ∀ m, PdfVersion.supports_icc v1 m = true →
        PdfVersion.supports_icc v2 m = true) := by
  constructor
  · intro d
    revert h
    cases v1 <;> cases v2 <;> cases d <;> decide
  · intro hex m
    cases v1 <;> cases v2 <;>
      first
        | exact absurd h (by decide)
        | exact absurd (by decide) hex
        | (simp [PdfVersion.supports_icc]; omega)
        | simp [PdfVersion.supports_icc]

/-- Claim C1 (witness): instantiation at `Pdf16 < Pdf17` with a 16-bit depth
and the profile with major 4, minor 1. -/
theorem claim_C1_witness :
    PdfVersion.supports_bit_depth .Pdf17 .Sixteen = true ∧
    PdfVersion.supports_icc .Pdf17 ⟨4, 1⟩ = true :=
  ⟨(claim_C1 .Pdf16 .Pdf17 (by decide)).1 .Sixteen (by decide),
    (claim_C1 .Pdf16 .Pdf17 (by decide)).2 (by decide) ⟨4, 1⟩ (by decide)⟩

/-- Claim C5: `rgb_icc` and `grey_icc` return the v2-generation profile
exactly below PDF 1.7 and the v4-generation profile exactly at and above
PDF 1.7; the boundary is the same for both color models. -/
theorem claim_C5 (v : PdfVersion) :
    (PdfVersion.rgb_icc v = .srgbV2 ↔ v < .Pdf17) ∧
    (PdfVersion.rgb_icc v = .srgbV4 ↔ .Pdf17 ≤ v) ∧
    (PdfVersion.grey_icc v = .greyV2 ↔ v < .Pdf17) ∧
    (PdfVersion.grey_icc v = .greyV4 ↔ .Pdf17 ≤ v) := by
  cases v <;> decide

/-- Claim C6: both deprecation predicates hold exactly at and above PDF 2.0;
in particular both are false at PDF 1.7 and true at PDF 2.0. -/
theorem claim_C6 (v : PdfVersion) :
    (PdfVersion.deprecates_proc_sets v = true ↔ .Pdf20 ≤ v) ∧
    (PdfVersion.deprecates_cid_set v = true ↔ .Pdf20 ≤ v) ∧
    PdfVersion.deprecates_proc_sets .Pdf17 = false ∧
    PdfVersion.deprecates_proc_sets .Pdf20 = true ∧
    PdfVersion.deprecates_cid_set .Pdf17 = false ∧
    PdfVersion.deprecates_cid_set .Pdf20 = true := by
  cases v <;> decide

/-- Claim C7: 8-bit depth is supported at every version; 16-bit depth is
supported exactly at PDF 1.5 and above — rejected at PDF 1.4, accepted at
PDF 1.5. -/
theorem claim_C7 (v : PdfVersion) :
    PdfVersion.supports_bit_depth v .Eight = true ∧
    (PdfVersion.supports_bit_depth v .Sixteen = true ↔ .Pdf15 ≤ v) ∧
    PdfVersion.supports_bit_depth .Pdf14 .Sixteen = false ∧
    PdfVersion.supports_bit_depth .Pdf15 .Sixteen = true := by
  cases v <;> decide

/-- Claim C8: `supports_icc` accepts a profile at PDF 1.4 exactly when its
major revision is at most 2 and its minor revision at most 2, and at PDF 2.0
exactly when its major revision is at most 4 and its minor revision at
most 2. -/
theorem claim_C8 (m : ICCMetadata) :
    (PdfVersion.supports_icc .Pdf14 m = true ↔ m.major ≤ 2 ∧ m.minor ≤ 2) ∧
    (PdfVersion.supports_icc .Pdf20 m = true ↔ m.major ≤ 4 ∧ m.minor ≤ 2) := by
  constructor <;> simp [PdfVersion.supports_icc]

/-- A hit in the font cache leaves it unchanged; a miss appends a key that was
absent, so distinct keys stay distinct: one `fontCacheGet` step preserves
duplicate-free cache keys. -/
theorem fontCacheGet_keys_nodup (cache : List (Nat × Font)) (f : FontRef)
    (h : (cache.map Prod.fst).Nodup) :
    (((fontCacheGet cache f).2).map Prod.fst).Nodup := by
  unfold fontCacheGet
  cases hf : cache.find? (fun e => e.1 == f.dataId) with
  | some e => simpa using h
  | none =>
    have habs : f.dataId ∉ cache.map Prod.fst := by
      intro hmem
      rcases List.mem_map.mp hmem with ⟨e, he, hfst⟩
      have := List.find?_eq_none.mp hf e he
      simp [hfst] at this
    simp [List.nodup_append, h, habs]

/-- Processing any sequence of font references preserves duplicate-free cache
keys: per document there is at most one cache entry per byte-buffer
identity. -/
theorem processFonts_keys_nodup (refs : List FontRef) :
    ∀ cache : List (Nat × Font), (cache.map Prod.fst).Nodup →
      (((processFonts cache refs).2).map Prod.fst).Nodup := by
  induction refs with
  | nil => intro cache h; simpa [processFonts] using h
  | cons f fs ih =>
    intro cache h
    simpa [processFonts] using ih (fontCacheGet cache f).2
      (fontCacheGet_keys_nodup cache f h)

/-- Claim C2 (counterexample): two font references with the same byte-buffer
identity 7 but different face indices 0 and 1 obtain the same `Font` — the
one constructed for index 0 — because the cache key is the byte identity
alone; only one cache entry exists afterwards. -/
theorem claim_C2_counterexample :
    (FontRef.mk 7 0).dataId = (FontRef.mk 7 1).dataId ∧
    (FontRef.mk 7 0).index ≠ (FontRef.mk 7 1).index ∧
    (processFonts [] [FontRef.mk 7 0, FontRef.mk 7 1]).1 =
      [Font.mk 7 0, Font.mk 7 0] ∧
    (processFonts [] [FontRef.mk 7 0, FontRef.mk 7 1]).2 =
      [(7, Font.mk 7 0)] := by
  decide

/-- Claim C2 (amended): the cache is keyed by the byte-buffer identity alone:
a second lookup with the same `dataId` returns the font obtained by the
first lookup even if the face indices differ, and processing any reference
sequence leaves at most one cache entry per byte-buffer identity. -/
theorem claim_C2 (cache : List (Nat × Font)) (r1 r2 : FontRef)
    (h : r1.dataId = r2.dataId) :
    (fontCacheGet (fontCacheGet cache r1).2 r2).1 = (fontCacheGet cache r1).1 ∧
    (∀ refs : List FontRef,
      (((processFonts [] refs).2).map Prod.fst).Nodup) := by
  constructor
  · unfold fontCacheGet
    cases hf : cache.find? (fun e => e.1 == r1.dataId) with
    | some e =>
      have : cache.find? (fun e => e.1 == r2.dataId) = some e := by
        rw [← h]; exact hf
      simp [hf, this]
    | none =>
      have hnone : ∀ e ∈ cache, ¬(e.1 == r2.dataId) = true := by
        intro e he
        have := List.find?_eq_none.mp hf e he
        rw [← h]
        exact this
      have hfind : (cache ++ [(r1.dataId, Font.mk r1.dataId r1.index)]).find?
          (fun e => e.1 == r2.dataId) =
            some (r1.dataId, Font.mk r1.dataId r1.index) := by
        rw [List.find?_append]
        have h1 : cache.find? (fun e => e.1 == r2.dataId) = none :=
          List.find?_eq_none.mpr hnone
        simp [h1, List.find?_cons, h]
      simp [hf, hfind]
  · intro refs
    exact processFonts_keys_nodup refs [] (by simp)

/-- Claim C2 (witness): instantiation at the empty cache and the references
with byte identity 3 and face indices 0 and 2. -/
theorem claim_C2_witness :
    (fontCacheGet (fontCacheGet [] (FontRef.mk 3 0)).2 (FontRef.mk 3 2)).1 =
      (fontCacheGet [] (FontRef.mk 3 0)).1 ∧
    (∀ refs : List FontRef,
      (((processFonts [] refs).2).map Prod.fst).Nodup) :=
  claim_C2 [] (FontRef.mk 3 0) (FontRef.mk 3 2) rfl

/-- A repeated `getOrCreate` on a singleton cache holding key `k` always hits:
it returns the stored value every time, never invoking the constructor. -/
theorem getOrCreateN_single {V : Type} (k : Nat) (ctor : Nat → V) (n : Nat) :
    ∀ (w : V) (calls : Nat),
      getOrCreateN k ctor n [(k, w)] calls =
        (List.replicate n w, [(k, w)], calls) := by
  induction n with
  | zero => intro w calls; simp [getOrCreateN]
  | succ n ih =>
    intro w calls
    simp [getOrCreateN, getOrCreate, List.find?_cons, ih, List.replicate]

/-- Claim C9: calling `getOrCreate` `n ≥ 1` times with the same key on an
initially empty cache invokes the constructor exactly once (the call counter
ends at 1), on the first call (the stored value is `ctor 0`), and every one of
the `n` calls returns that single instance, even though the instrumented
constructor would produce distinguishable outputs on later invocations. -/
theorem claim_C9 {V : Type} (n : Nat) (hn : 1 ≤ n) (k : Nat) (ctor : Nat → V) :
    getOrCreateN k ctor n [] 0 =
      (List.replicate n (ctor 0), [(k, ctor 0)], 1) := by
  cases n with
  | zero => exact absurd hn (by decide)
  | succ m =>
    simp [getOrCreateN, getOrCreate, getOrCreateN_single, List.replicate]

/-- Claim C9 (witness): three calls with key 5 and the identity constructor,
which would return 0, 1, 2 on successive invocations, all return 0 and leave
a single constructed entry. -/
theorem claim_C9_witness :
    getOrCreateN 5 (fun i => i) 3 [] 0 = ([0, 0, 0], [(5, 0)], 1) :=
  claim_C9 3 (by decide) 5 (fun i => i)

/-- Claim C10: whenever the glyph buffer of the loop state is non-empty the
current style is set, and consequently the `cur_style.unwrap()` at the final
flush never panics: the run always produces an operator sequence. -/
theorem claim_C10 (fontSize y x0 : ℚ) (gs : List InGlyph) :
    ((gs.foldl (runStep fontSize y) (initState x0)).glyphs.isEmpty ||
      (gs.foldl (runStep fontSize y) (initState x0)).curStyle.isSome) = true ∧
    (processRun fontSize y x0 gs).isSome = true := by
  constructor
  · exact foldl_runStep_inv fontSize y gs (initState x0) (by simp [initState])
  · rw [processRun_eq_chunks]
    rfl

/-- Claim C4: the loop emits exactly the operators of the maximal contiguous
style-homogeneous chunk decomposition of the input: concatenating the chunks
recovers the input (no glyph dropped or duplicated, order preserved), every
chunk is non-empty and style-homogeneous, the emitted batches are exactly the
chunks, and there is exactly one style-set and one glyph-show operator per
chunk — including the single final flush of a non-empty buffer. -/
theorem claim_C4 (fontSize y x0 : ℚ) (gs : List InGlyph) :
    processRun fontSize y x0 gs =
      some (opsOfChunks fontSize y x0 (chunkByStyle gs)) ∧
    (chunkByStyle gs).flatten = gs ∧
    chunksHomogeneous (chunkByStyle gs) = true ∧
    drawBatches (opsOfChunks fontSize y x0 (chunkByStyle gs)) =
      (chunkByStyle gs).map (List.map (toKrilla fontSize)) ∧
    numFills (opsOfChunks fontSize y x0 (chunkByStyle gs)) =
      (chunkByStyle gs).length ∧
    numDraws (opsOfChunks fontSize y x0 (chunkByStyle gs)) =
      (chunkByStyle gs).length :=
  ⟨processRun_eq_chunks fontSize y x0 gs,
    chunkByStyle_join gs,
    chunkByStyle_homogeneous gs,
    drawBatches_opsOfChunks fontSize y (chunkByStyle gs) x0,
    numFills_opsOfChunks fontSize y (chunkByStyle gs) x0,
    numDraws_opsOfChunks fontSize y (chunkByStyle gs) x0⟩

/-- The chunk decomposition of a 10-glyph run styled A,A,A,A,B,B,B,A,A,A
with A ≠ B: three chunks of sizes 4, 3 and 3. -/
theorem chunkByStyle_ABA (g0 g1 g2 g3 g4 g5 g6 g7 g8 g9 : InGlyph)
    (A B : Nat) (hAB : A ≠ B)
    (h0 : g0.styleIndex = A) (h1 : g1.styleIndex = A) (h2 : g2.styleIndex = A)
    (h3 : g3.styleIndex = A) (h4 : g4.styleIndex = B) (h5 : g5.styleIndex = B)
    (h6 : g6.styleIndex = B) (h7 : g7.styleIndex = A) (h8 : g8.styleIndex = A)
    (h9 : g9.styleIndex = A) :
    chunkByStyle [g0, g1, g2, g3, g4, g5, g6, g7, g8, g9] =
      [[g0, g1, g2, g3], [g4, g5, g6], [g7, g8, g9]] := by
  have eBA : (B == A) = false := by
    simp [Ne.symm hAB]
  have eAB : (A == B) = false := by
    simp [hAB]
  simp [chunkByStyle, List.takeWhile_cons, List.dropWhile_cons,
    h0, h1, h2, h3, h4, h5, h6, h7, h8, h9, eBA, eAB]

/-- Claim C3: on a run of 10 glyphs whose style indices are A at positions
0–3, B at positions 4–6 and A again at positions 7–9 (A ≠ B), the loop emits
exactly the six operators shown — three glyph-show operators with batches of
sizes 4, 3, 3 in input order, each preceded by one style-set operator (so at
most three style-set operators), and each batch positioned at the sum of the
advances of all glyphs emitted before it. -/
theorem claim_C3 (fontSize y : ℚ)
    (g0 g1 g2 g3 g4 g5 g6 g7 g8 g9 : InGlyph) (A B : Nat) (hAB : A ≠ B)
    (h0 : g0.styleIndex = A) (h1 : g1.styleIndex = A) (h2 : g2.styleIndex = A)
    (h3 : g3.styleIndex = A) (h4 : g4.styleIndex = B) (h5 : g5.styleIndex = B)
    (h6 : g6.styleIndex = B) (h7 : g7.styleIndex = A) (h8 : g8.styleIndex = A)
    (h9 : g9.styleIndex = A) :
    processRun fontSize y 0 [g0, g1, g2, g3, g4, g5, g6, g7, g8, g9] =
      some [Op.setFill A,
        Op.drawGlyphs 0 y ([g0, g1, g2, g3].map (toKrilla fontSize)),
        Op.setFill B,
        Op.drawGlyphs (g0.advance + g1.advance + g2.advance + g3.advance) y
          ([g4, g5, g6].map (toKrilla fontSize)),
        Op.setFill A,
        Op.drawGlyphs (g0.advance + g1.advance + g2.advance + g3.advance +
          g4.advance + g5.advance + g6.advance) y
          ([g7, g8, g9].map (toKrilla fontSize))] ∧
    Option.map numDraws
      (processRun fontSize y 0 [g0, g1, g2, g3, g4, g5, g6, g7, g8, g9]) =
      some 3 ∧
    Option.map numFills
      (processRun fontSize y 0 [g0, g1, g2, g3, g4, g5, g6, g7, g8, g9]) =
      some 3 ∧
    Option.map (fun ops => (drawBatches ops).map List.length)
      (processRun fontSize y 0 [g0, g1, g2, g3, g4, g5, g6, g7, g8, g9]) =
      some [4, 3, 3] ∧
    Option.map (fun ops => (drawBatches ops).flatten)
      (processRun fontSize y 0 [g0, g1, g2, g3, g4, g5, g6, g7, g8, g9]) =
      some ([g0, g1, g2, g3, g4, g5, g6, g7, g8, g9].map (toKrilla fontSize)) ∧
    Option.map drawOrigins
      (processRun fontSize y 0 [g0, g1, g2, g3, g4, g5, g6, g7, g8, g9]) =
      some [0, g0.advance + g1.advance + g2.advance + g3.advance,
        g0.advance + g1.advance + g2.advance + g3.advance +
          g4.advance + g5.advance + g6.advance] := by
  have hmain : processRun fontSize y 0
      [g0, g1, g2, g3, g4, g5, g6, g7, g8, g9] =
      some [Op.setFill A,
        Op.drawGlyphs 0 y ([g0, g1, g2, g3].map (toKrilla fontSize)),
        Op.setFill B,
        Op.drawGlyphs (g0.advance + g1.advance + g2.advance + g3.advance) y
          ([g4, g5, g6].map (toKrilla fontSize)),
        Op.setFill A,
        Op.drawGlyphs (g0.advance + g1.advance + g2.advance + g3.advance +
          g4.advance + g5.advance + g6.advance) y
          ([g7, g8, g9].map (toKrilla fontSize))] := by
    rw [processRun_eq_chunks,
      chunkByStyle_ABA g0 g1 g2 g3 g4 g5 g6 g7 g8 g9 A B hAB
        h0 h1 h2 h3 h4 h5 h6 h7 h8 h9]
    simp [opsOfChunks, headStyle, sumAdv, h0, h4, h7]
    refine ⟨by ring, by ring⟩
  refine ⟨hmain, ?_, ?_, ?_, ?_, ?_⟩ <;>
    rw [hmain] <;>
    simp [numDraws, numFills, drawBatches, drawOrigins, List.countP_cons]

/-- Claim C3 (witness): instantiation with ten unit-advance glyphs, styles
0,0,0,0,1,1,1,0,0,0, font size 1 and baseline 0. -/
theorem claim_C3_witness :
    processRun 1 0 0 [⟨0, 1, 0, 0, 0, 0, 0⟩, ⟨1, 1, 0, 0, 0, 0, 0⟩,
      ⟨2, 1, 0, 0, 0, 0, 0⟩, ⟨3, 1, 0, 0, 0, 0, 0⟩, ⟨4, 1, 0, 0, 1, 0, 0⟩,
      ⟨5, 1, 0, 0, 1, 0, 0⟩, ⟨6, 1, 0, 0, 1, 0, 0⟩, ⟨7, 1, 0, 0, 0, 0, 0⟩,
      ⟨8, 1, 0, 0, 0, 0, 0⟩, ⟨9, 1, 0, 0, 0, 0, 0⟩] =
      some [Op.setFill 0,
        Op.drawGlyphs 0 0 ([⟨0, 1, 0, 0, 0, 0, 0⟩, ⟨1, 1, 0, 0, 0, 0, 0⟩,
          ⟨2, 1, 0, 0, 0, 0, 0⟩, ⟨3, 1, 0, 0, 0, 0, 0⟩].map (toKrilla 1)),
        Op.setFill 1,
        Op.drawGlyphs (1 + 1 + 1 + 1) 0 ([⟨4, 1, 0, 0, 1, 0, 0⟩,
          ⟨5, 1, 0, 0, 1, 0, 0⟩, ⟨6, 1, 0, 0, 1, 0, 0⟩].map (toKrilla 1)),
        Op.setFill 0,
        Op.drawGlyphs (1 + 1 + 1 + 1 + 1 + 1 + 1) 0
          ([⟨7, 1, 0, 0, 0, 0, 0⟩, ⟨8, 1, 0, 0, 0, 0, 0⟩,
            ⟨9, 1, 0, 0, 0, 0, 0⟩].map (toKrilla 1))] ∧
    Option.map numDraws (processRun 1 0 0 [⟨0, 1, 0, 0, 0, 0, 0⟩,
      ⟨1, 1, 0, 0, 0, 0, 0⟩, ⟨2, 1, 0, 0, 0, 0, 0⟩, ⟨3, 1, 0, 0, 0, 0, 0⟩,
      ⟨4, 1, 0, 0, 1, 0, 0⟩, ⟨5, 1, 0, 0, 1, 0, 0⟩, ⟨6, 1, 0, 0, 1, 0, 0⟩,
      ⟨7, 1, 0, 0, 0, 0, 0⟩, ⟨8, 1, 0, 0, 0, 0, 0⟩,
      ⟨9, 1, 0, 0, 0, 0, 0⟩]) = some 3 ∧
    Option.map numFills (processRun 1 0 0 [⟨0, 1, 0, 0, 0, 0, 0⟩,
      ⟨1, 1, 0, 0, 0, 0, 0⟩, ⟨2, 1, 0, 0, 0, 0, 0⟩, ⟨3, 1, 0, 0, 0, 0, 0⟩,
      ⟨4, 1, 0, 0, 1, 0, 0⟩, ⟨5, 1, 0, 0, 1, 0, 0⟩, ⟨6, 1, 0, 0, 1, 0, 0⟩,
      ⟨7, 1, 0, 0, 0, 0, 0⟩, ⟨8, 1, 0, 0, 0, 0, 0⟩,
      ⟨9, 1, 0, 0, 0, 0, 0⟩]) = some 3 ∧
    Option.map (fun ops => (drawBatches ops).map List.length)
      (processRun 1 0 0 [⟨0, 1, 0, 0, 0, 0, 0⟩, ⟨1, 1, 0, 0, 0, 0, 0⟩,
        ⟨2, 1, 0, 0, 0, 0, 0⟩, ⟨3, 1, 0, 0, 0, 0, 0⟩, ⟨4, 1, 0, 0, 1, 0, 0⟩,
        ⟨5, 1, 0, 0, 1, 0, 0⟩, ⟨6, 1, 0, 0, 1, 0, 0⟩, ⟨7, 1, 0, 0, 0, 0, 0⟩,
        ⟨8, 1, 0, 0, 0, 0, 0⟩, ⟨9, 1, 0, 0, 0, 0, 0⟩]) = some [4, 3, 3] ∧
    Option.map (fun ops => (drawBatches ops).flatten)
      (processRun 1 0 0 [⟨0, 1, 0, 0, 0, 0, 0⟩, ⟨1, 1, 0, 0, 0, 0, 0⟩,
        ⟨2, 1, 0, 0, 0, 0, 0⟩, ⟨3, 1, 0, 0, 0, 0, 0⟩, ⟨4, 1, 0, 0, 1, 0, 0⟩,
        ⟨5, 1, 0, 0, 1, 0, 0⟩, ⟨6, 1, 0, 0, 1, 0, 0⟩, ⟨7, 1, 0, 0, 0, 0, 0⟩,
        ⟨8, 1, 0, 0, 0, 0, 0⟩, ⟨9, 1, 0, 0, 0, 0, 0⟩]) =
      some ([⟨0, 1, 0, 0, 0, 0, 0⟩, ⟨1, 1, 0, 0, 0, 0, 0⟩,
        ⟨2, 1, 0, 0, 0, 0, 0⟩, ⟨3, 1, 0, 0, 0, 0, 0⟩, ⟨4, 1, 0, 0, 1, 0, 0⟩,
        ⟨5, 1, 0, 0, 1, 0, 0⟩, ⟨6, 1, 0, 0, 1, 0, 0⟩, ⟨7, 1, 0, 0, 0, 0, 0⟩,
        ⟨8, 1, 0, 0, 0, 0, 0⟩,
        ⟨9, 1, 0, 0, 0, 0, 0⟩].map (toKrilla 1)) ∧
    Option.map drawOrigins (processRun 1 0 0 [⟨0, 1, 0, 0, 0, 0, 0⟩,
      ⟨1, 1, 0, 0, 0, 0, 0⟩, ⟨2, 1, 0, 0, 0, 0, 0⟩, ⟨3, 1, 0, 0, 0, 0, 0⟩,
      ⟨4, 1, 0, 0, 1, 0, 0⟩, ⟨5, 1, 0, 0, 1, 0, 0⟩, ⟨6, 1, 0, 0, 1, 0, 0⟩,
      ⟨7, 1, 0, 0, 0, 0, 0⟩, ⟨8, 1, 0, 0, 0, 0, 0⟩,
      ⟨9, 1, 0, 0, 0, 0, 0⟩]) =
      some [0, 1 + 1 + 1 + 1, 1 + 1 + 1 + 1 + 1 + 1 + 1] :=
  claim_C3 1 0 ⟨0, 1, 0, 0, 0, 0, 0⟩ ⟨1, 1, 0, 0, 0, 0, 0⟩
    ⟨2, 1, 0, 0, 0, 0, 0⟩ ⟨3, 1, 0, 0, 0, 0, 0⟩ ⟨4, 1, 0, 0, 1, 0, 0⟩
    ⟨5, 1, 0, 0, 1, 0, 0⟩ ⟨6, 1, 0, 0, 1, 0, 0⟩ ⟨7, 1, 0, 0, 0, 0, 0⟩
    ⟨8, 1, 0, 0, 0, 0, 0⟩ ⟨9, 1, 0, 0, 0, 0, 0⟩ 0 1 (by decide)
    rfl rfl rfl rfl rfl rfl rfl rfl rfl rfl
